import Mathlib

/-!
Verification of the latlon_groups repository.

The embedding follows the source files:
  * `distance.py` / `GroupSplitter.__distance`  →  `distance`
  * `GroupSplitter.__read_csv`                  →  `readCsv`
  * `GroupSplitter.__build_groups`              →  `buildGroups` (via `step` / `buildLoop`)
  * the line `num_per_group = int(math.ceil(len(users) / int(groups)))`
    of `GroupSplitter.__init__`  →  `numPerGroup`

Python floats are modelled as rationals (`ℚ`) for coordinates and distance
keys (the group builder only ever uses distances as sort keys, so it is
parametric in the distance function `d`), and as reals (`ℝ`) for the
distance formula itself.  Python lists are Lean lists; a raised
`IndexError` / `sys.exit` is modelled by an `Option` result being `none`.
-/

/-- A parsed record (one CSV row that parsed successfully): the unique `id`
field together with the `latlon = (latitude, longitude)` pair attached by
`__read_csv`. -/
structure Record where
  rid : Nat
  lat : ℚ
  lon : ℚ
deriving DecidableEq, Repr

/-- The distance formula of `distance.py` (identical to
`GroupSplitter.__distance`):
`x = (b_long - a_long) * cos((a_lat + b_lat) / 2)`, `y = b_lat - a_lat`,
`distance = sqrt(x ** 2 + y ** 2) * 6371`.  Arguments are `(lat, long)`
pairs. -/
noncomputable def distance (A B : ℝ × ℝ) : ℝ :=
  Real.sqrt (((B.2 - A.2) * Real.cos ((A.1 + B.1) / 2)) ^ 2 + (B.1 - A.1) ^ 2) * 6371

/-- `self.num_per_group = int(math.ceil(len(users) / int(groups)))` from
`GroupSplitter.__init__`; the ceiling division `⌈n / g⌉` on naturals. -/
def numPerGroup (users : List Record) (groups : Nat) : Nat :=
  (users.length + groups - 1) / groups

/-! ### The inner for-loop of `__build_groups`

```
current_group = list()
for other_user in sorted(user_list_copy, key=lambda ou: distance(user, ou)):
    if len(current_group) <= self.num_per_group:
        current_group.append(other_user)
        del(user_list_copy[user_list_copy.index(other_user)])
    else:
        break
```

`fill` walks the sorted snapshot, appending to `current_group` and erasing
the first equal occurrence from the pool while the guard holds, and stops
(`break`) at the first rejection. -/

/-- The inner for-loop body of `__build_groups`: first argument list is the
distance-sorted snapshot being iterated, second is `current_group`, third
is the live `user_list_copy` pool. -/
def fill (npg : Nat) : List Record → List Record → List Record → List Record × List Record
  | [], currentGroup, pool => (currentGroup, pool)
  | otherUser :: rest, currentGroup, pool =>
    if currentGroup.length ≤ npg then
      fill npg rest (currentGroup ++ [otherUser]) (pool.erase otherUser)
    else
      (currentGroup, pool)

/-- The snapshot `sorted(user_list_copy, key=lambda ou: self.__distance(...))`:
a stable ascending sort of the pool by distance from the seed.  The Python
`sorted` builtin is a stable sort, and a stable ascending sort by a fixed
key is a unique function of its input, so the stable `List.insertionSort`
models it exactly. -/
def sortByDistFrom (d : Record → Record → ℚ) (seed : Record) (pool : List Record) : List Record :=
  pool.insertionSort (fun a b => d seed a ≤ d seed b)

/-- One full inner loop of `__build_groups`: sort the pool by distance from
the seed, then greedily pull members.  Returns `(current_group, new pool)`. -/
def roundFill (d : Record → Record → ℚ) (npg : Nat) (seed : Record) (pool : List Record) :
    List Record × List Record :=
  fill npg (sortByDistFrom d seed pool) [] pool

/-- The loop state of `__build_groups`: `num_groups`, the live
`user_list_copy` pool, and `groups_list`. -/
structure BuildState where
  numGroups : Nat
  pool : List Record
  groupsList : List (List Record)
deriving DecidableEq, Repr

/-- Result of one iteration of the `while` loop of `__build_groups`.
The two error constructors record the two places an `IndexError` can be
raised: `user = user_list_copy[num_groups]` (line 193) and
`groups_list[-1].extend(...)` (line 208). -/
inductive StepResult where
  | next (s : BuildState)
  | finished (gl : List (List Record))
  | seedIndexError
  | mergeIndexError
deriving DecidableEq, Repr

/-- `user = user_list_copy[num_groups]` (line 193): the seed record the
round starts from, `none` when the index is out of range. -/
def chosenSeed (s : BuildState) : Option Record :=
  s.pool[s.numGroups]?

/-- One iteration of the `while num_groups <= int(groups) - 1` loop of
`__build_groups` (lines 192–217).  `if current_group and len(current_group)
>= self.num_per_group` finalizes the candidate group; otherwise the members
are merged into `groups_list[-1]`, and if the merged group reaches
`self.num_per_group * 1.5` (for integers, `3 * npg ≤ 2 * len`, which is the
exact meaning of the float comparison `len >= npg * 1.5`) it is split:
`groups_list[-1][npg:]` is moved into a new group appended at the end. -/
def step (d : Record → Record → ℚ) (npg groups : Nat) (s : BuildState) : StepResult :=
  if s.numGroups < groups then
    match chosenSeed s with
    | none => .seedIndexError
    | some seed =>
      if (roundFill d npg seed s.pool).1 ≠ [] ∧
          npg ≤ (roundFill d npg seed s.pool).1.length then
        .next ⟨s.numGroups + 1, (roundFill d npg seed s.pool).2,
               s.groupsList ++ [(roundFill d npg seed s.pool).1]⟩
      else
        match s.groupsList.getLast? with
        | none => .mergeIndexError
        | some lastGroup =>
          if 3 * npg ≤ 2 * (lastGroup ++ (roundFill d npg seed s.pool).1).length then
            .next ⟨s.numGroups + 1, (roundFill d npg seed s.pool).2,
                   s.groupsList.dropLast ++
                     [(lastGroup ++ (roundFill d npg seed s.pool).1).take npg,
                      (lastGroup ++ (roundFill d npg seed s.pool).1).drop npg]⟩
          else
            .next ⟨s.numGroups, (roundFill d npg seed s.pool).2,
                   s.groupsList.dropLast ++ [lastGroup ++ (roundFill d npg seed s.pool).1]⟩
  else .finished s.groupsList

/-! ### Closed form of the inner loop and termination facts -/

/-- Closed form of `fill`: while the guard admits, the loop takes exactly the
next `npg + 1 - len(current_group)` snapshot elements and erases each from
the pool. -/
theorem fill_eq (npg : Nat) :
    ∀ (snap currentGroup pool : List Record),
      fill npg snap currentGroup pool =
        if currentGroup.length ≤ npg then
          (currentGroup ++ snap.take (npg + 1 - currentGroup.length),
           (snap.take (npg + 1 - currentGroup.length)).foldl (fun p u => p.erase u) pool)
        else (currentGroup, pool) := by
  intro snap
  induction snap with
  | nil =>
    intro currentGroup pool
    simp [fill]
  | cons u rest ih =>
    intro currentGroup pool
    by_cases h : currentGroup.length ≤ npg
    · rw [if_pos h]
      have hsucc : npg + 1 - currentGroup.length = (npg - currentGroup.length) + 1 := by omega
      rw [hsucc, List.take_succ_cons]
      simp only [fill, if_pos h]
      rw [ih]
      by_cases h2 : currentGroup.length + 1 ≤ npg
      · rw [if_pos (by simpa using h2)]
        have h3 : npg + 1 - (currentGroup ++ [u]).length = npg - currentGroup.length := by
          rw [List.length_append, List.length_singleton]
          omega
        rw [h3]
        simp [List.append_assoc]
      · rw [if_neg (by simpa using h2)]
        have h4 : npg - currentGroup.length = 0 := by omega
        rw [h4]
        simp
    · rw [if_neg h]
      simp only [fill, if_neg h]

theorem roundFill_fst (d : Record → Record → ℚ) (npg : Nat) (seed : Record)
    (pool : List Record) :
    (roundFill d npg seed pool).1 = (sortByDistFrom d seed pool).take (npg + 1) := by
  rw [roundFill, fill_eq]
  simp

theorem roundFill_snd (d : Record → Record → ℚ) (npg : Nat) (seed : Record)
    (pool : List Record) :
    (roundFill d npg seed pool).2 =
      ((sortByDistFrom d seed pool).take (npg + 1)).foldl (fun p u => p.erase u) pool := by
  rw [roundFill, fill_eq]
  simp

theorem roundFill_fst_length (d : Record → Record → ℚ) (npg : Nat) (seed : Record)
    (pool : List Record) :
    (roundFill d npg seed pool).1.length = min (npg + 1) pool.length := by
  rw [roundFill_fst]
  simp [sortByDistFrom, List.length_take, List.length_insertionSort]

/-- Erasing, one by one, the members of a sub-multiset `t` of `pool` leaves
exactly the complement: `t ++ (erase-fold) ~ pool`. -/
theorem foldl_erase_perm :
    ∀ (t pool : List Record), t.Subperm pool →
      (t ++ t.foldl (fun p u => p.erase u) pool).Perm pool := by
  intro t
  induction t with
  | nil =>
    intro pool _
    simp
  | cons u rest ih =>
    intro pool hsub
    have hu : u ∈ pool := hsub.subset (List.mem_cons_self u rest)
    have hpe : pool.Perm (u :: pool.erase u) := List.perm_cons_erase hu
    have hrest : rest.Subperm (pool.erase u) := by
      rw [List.subperm_ext_iff] at hsub ⊢
      intro x hx
      have h1 := hsub x (List.mem_cons_of_mem _ hx)
      rw [List.count_cons] at h1
      rw [List.count_erase]
      by_cases hux : u = x
      · simp [hux] at h1 ⊢
        omega
      · have hne : (u == x) = false := by
          simp [hux]
        simp [hne] at h1 ⊢
        exact h1
    have hstep : ((u :: rest) ++ (u :: rest).foldl (fun p v => p.erase v) pool) =
        u :: (rest ++ rest.foldl (fun p v => p.erase v) (pool.erase u)) := by
      simp [List.foldl_cons]
    rw [hstep]
    exact ((ih (pool.erase u) hrest).cons u).trans hpe.symm

theorem roundFill_perm (d : Record → Record → ℚ) (npg : Nat) (seed : Record)
    (pool : List Record) :
    ((roundFill d npg seed pool).1 ++ (roundFill d npg seed pool).2).Perm pool := by
  have hsub : ((sortByDistFrom d seed pool).take (npg + 1)).Subperm pool :=
    ((List.take_sublist _ _).subperm).trans (List.perm_insertionSort _ pool).subperm
  rw [roundFill_fst, roundFill_snd]
  exact foldl_erase_perm _ _ hsub

theorem roundFill_length_add (d : Record → Record → ℚ) (npg : Nat) (seed : Record)
    (pool : List Record) :
    (roundFill d npg seed pool).1.length + (roundFill d npg seed pool).2.length =
      pool.length := by
  have h := (roundFill_perm d npg seed pool).length_eq
  simpa [List.length_append] using h

theorem roundFill_snd_lt (d : Record → Record → ℚ) (npg : Nat) (seed : Record)
    (pool : List Record) (h : pool ≠ []) :
    (roundFill d npg seed pool).2.length < pool.length := by
  have h1 := roundFill_length_add d npg seed pool
  have h2 := roundFill_fst_length d npg seed pool
  have h3 : 0 < pool.length := List.length_pos.mpr h
  have h4 : 1 ≤ min (npg + 1) pool.length := le_min (by omega) h3
  omega

theorem step_next_pool_lt {d : Record → Record → ℚ} {npg groups : Nat}
    {s s' : BuildState} (h : step d npg groups s = .next s') :
    s'.pool.length < s.pool.length := by
  by_cases hg : s.numGroups < groups
  · cases hseed : chosenSeed s with
    | none => simp [step, hg, hseed] at h
    | some seed =>
      have hne : s.pool ≠ [] := by
        rcases List.getElem?_eq_some.mp hseed with ⟨hlt, _⟩
        exact List.length_pos.mp (by omega)
      have hlt := roundFill_snd_lt d npg seed s.pool hne
      by_cases hb : (roundFill d npg seed s.pool).1 ≠ [] ∧
          npg ≤ (roundFill d npg seed s.pool).1.length
      · simp only [step, if_pos hg, hseed, if_pos hb] at h
        injection h with h
        rw [← h]
        exact hlt
      · cases hl : s.groupsList.getLast? with
        | none => simp [step, hg, hseed, hb, hl] at h
        | some lastGroup =>
          by_cases hsplit : 3 * npg ≤
              2 * (lastGroup ++ (roundFill d npg seed s.pool).1).length
          · simp only [step, if_pos hg, hseed, if_neg hb, hl, if_pos hsplit] at h
            injection h with h
            rw [← h]
            exact hlt
          · simp only [step, if_pos hg, hseed, if_neg hb, hl, if_neg hsplit] at h
            injection h with h
            rw [← h]
            exact hlt
  · simp [step, hg] at h

/-- The `while num_groups <= int(groups) - 1` loop of `__build_groups`:
iterate `step` until the loop exits (`finished`) or an `IndexError` is
raised (`none`).  Terminates because every continuing iteration removes at
least one record from the pool. -/
def buildLoop (d : Record → Record → ℚ) (npg groups : Nat) (s : BuildState) :
    Option (List (List Record)) :=
  match h : step d npg groups s with
  | .next s' => buildLoop d npg groups s'
  | .finished gl => some gl
  | .seedIndexError => none
  | .mergeIndexError => none
termination_by s.pool.length
decreasing_by exact step_next_pool_lt h

/-- The initial loop state of `__build_groups`:
`user_list_copy = sorted(list(user_list), key=lambda lon: latlon of lon, index 1)`
(longitude ascending, stable), `groups_list = []`, `num_groups = 0`. -/
def initState (userList : List Record) : BuildState :=
  ⟨0, userList.insertionSort (fun a b => a.lon ≤ b.lon), []⟩

/-- `__build_groups(user_list, groups)` with `self.num_per_group` as computed
in `__init__`.  `none` models a raised `IndexError`. -/
def buildGroups (d : Record → Record → ℚ) (userList : List Record) (groups : Nat) :
    Option (List (List Record)) :=
  buildLoop d (numPerGroup userList groups) groups (initState userList)

/-- Running `k` iterations of the loop from state `s`; `none` if the loop
finished or errored strictly before `k` iterations. -/
def stepsN (d : Record → Record → ℚ) (npg groups : Nat) : Nat → BuildState → Option BuildState
  | 0, s => some s
  | k + 1, s =>
    match step d npg groups s with
    | .next s' => stepsN d npg groups k s'
    | _ => none

/-! ### CSV ingestion (`__read_csv`)

A CSV row is modelled by whether all required columns (`id`, `latitude`,
`longitude`) are present (`hasRequiredKeys`), and by the result of
`float(latitude), float(longitude)`: `coords = none` models
a `ValueError` (unparseable numeric text), `some (lat, lon)` a successful
parse.  `sys.exit` on a missing column is the `none` result. -/

/-- One raw CSV row as seen by `__read_csv`. -/
structure RawRow where
  rid : Nat
  hasRequiredKeys : Bool
  coords : Option (ℚ × ℚ)
deriving DecidableEq, Repr

/-- The record a raw row contributes, if its coordinates parse. -/
def rowRecord (r : RawRow) : Option Record :=
  r.coords.map (fun c => ⟨r.rid, c.1, c.2⟩)

/-- The row loop of `__read_csv` (lines 139–152): accumulates parsed users
and the `skipped_users` counter; aborts (`none`, i.e. `sys.exit`) on a row
missing a required column. -/
def readCsvGo : List RawRow → List Record → Nat → Option (List Record × Nat)
  | [], users, skipped => some (users, skipped)
  | r :: rest, users, skipped =>
    if r.hasRequiredKeys then
      match r.coords with
      | some c => readCsvGo rest (users ++ [⟨r.rid, c.1, c.2⟩]) skipped
      | none => readCsvGo rest users (skipped + 1)
    else none

/-- `__read_csv`: returns the parsed user list together with the
`skipped_users` count (which line 153–154 reports as a warning when
positive); `none` models the fatal `sys.exit` path. -/
def readCsv (rows : List RawRow) : Option (List Record × Nat) :=
  readCsvGo rows [] 0

/-! ### Concrete sample data used by the witnesses

`sampleDist` is a concrete computable stand-in for the distance key (the
squared Euclidean distance in coordinate space); the builder theorems hold
for every distance function `d`, and the witnesses instantiate `d` with
`sampleDist`. -/

/-- A concrete distance key used by witnesses: the squared difference of the
record ids.  The sample records below sit on the equator with `lon = rid`,
so this key orders them exactly like the geometric distance from the seed.
(Integer arithmetic, so that concrete runs evaluate inside the kernel.) -/
def sampleDist (a b : Record) : ℚ :=
  (((a.rid : Int) - (b.rid : Int)) * ((a.rid : Int) - (b.rid : Int)) : Int)

/-- A record on the equator at integer longitude `i`. -/
def linRecord (i : Nat) : Record :=
  ⟨i, 0, (i : ℚ)⟩

/-- Five records at longitudes 0..4. -/
def users5 : List Record := [linRecord 0, linRecord 1, linRecord 2, linRecord 3, linRecord 4]

/-- Six records at longitudes 0..5. -/
def users6 : List Record := users5 ++ [linRecord 5]

/-- Eight records at longitudes 0..7. -/
def users8 : List Record := users6 ++ [linRecord 6, linRecord 7]

/-- The grouping the code produces on `users6` with two groups. -/
def groups6 : List (List Record) :=
  [[linRecord 0, linRecord 1, linRecord 2], [linRecord 3, linRecord 5, linRecord 4]]

/-- The grouping the code produces on `users8` with two groups. -/
def groups8 : List (List Record) :=
  [[linRecord 0, linRecord 1, linRecord 2, linRecord 3],
   [linRecord 4, linRecord 6, linRecord 5, linRecord 7]]

/-- The pool of the loop state after the first round on `users8`. -/
def midPool : List Record := [linRecord 5, linRecord 6, linRecord 7]

/-- The finalized groups of the loop state after the first round on `users8`. -/
def midGroups : List (List Record) :=
  [[linRecord 0, linRecord 1, linRecord 2, linRecord 3, linRecord 4]]

/-- The loop state after the first round on `users8` with two groups. -/
def midState : BuildState := ⟨1, midPool, midGroups⟩

/-- A raw CSV row with all columns present and numeric coordinates. -/
def goodRow (i : Nat) (la lo : ℚ) : RawRow := ⟨i, true, some (la, lo)⟩

/-- A raw CSV row with all columns present but an unparseable coordinate
(`latitude="abc"`). -/
def badRow (i : Nat) : RawRow := ⟨i, true, none⟩

/-- Sample CSV input: two parseable rows around one unparseable row. -/
def sampleRows : List RawRow := [goodRow 0 1 2, badRow 1, goodRow 2 3 4]

/-- Proposition: no loop state reachable from `s` raises the merge-time
`IndexError` (`groups_list[-1]` read on an empty `groups_list`). -/
def noMergeCrashFrom (d : Record → Record → ℚ) (npg groups : Nat) (s : BuildState) : Prop :=
  ∀ k t, stepsN d npg groups k s = some t → step d npg groups t ≠ .mergeIndexError

theorem buildLoop_next {d : Record → Record → ℚ} {npg groups : Nat} {s s' : BuildState}
    (h : step d npg groups s = .next s') :
    buildLoop d npg groups s = buildLoop d npg groups s' := by
  rw [buildLoop]
  split <;> simp_all

theorem buildLoop_finished {d : Record → Record → ℚ} {npg groups : Nat} {s : BuildState}
    {gl : List (List Record)} (h : step d npg groups s = .finished gl) :
    buildLoop d npg groups s = some gl := by
  rw [buildLoop]
  split <;> simp_all

theorem buildLoop_seedErr {d : Record → Record → ℚ} {npg groups : Nat} {s : BuildState}
    (h : step d npg groups s = .seedIndexError) :
    buildLoop d npg groups s = none := by
  rw [buildLoop]
  split <;> simp_all

theorem buildLoop_mergeErr {d : Record → Record → ℚ} {npg groups : Nat} {s : BuildState}
    (h : step d npg groups s = .mergeIndexError) :
    buildLoop d npg groups s = none := by
  rw [buildLoop]
  split <;> simp_all

/-! ### Characterizations of the branches of `step` -/

theorem step_of_not_lt {d : Record → Record → ℚ} {npg groups ng : Nat}
    {pool : List Record} {gl : List (List Record)} (hg : ¬ ng < groups) :
    step d npg groups ⟨ng, pool, gl⟩ = .finished gl := by
  simp [step, hg]

theorem step_of_no_seed {d : Record → Record → ℚ} {npg groups ng : Nat}
    {pool : List Record} {gl : List (List Record)} (hg : ng < groups)
    (hs : pool[ng]? = (none : Option Record)) :
    step d npg groups ⟨ng, pool, gl⟩ = .seedIndexError := by
  simp [step, chosenSeed, hg, hs]

theorem step_finalize {d : Record → Record → ℚ} {npg groups ng : Nat}
    {pool : List Record} {gl : List (List Record)} {seed : Record}
    (hg : ng < groups) (hseed : pool[ng]? = some seed)
    (hb : (roundFill d npg seed pool).1 ≠ [] ∧ npg ≤ (roundFill d npg seed pool).1.length) :
    step d npg groups ⟨ng, pool, gl⟩ =
      .next ⟨ng + 1, (roundFill d npg seed pool).2, gl ++ [(roundFill d npg seed pool).1]⟩ := by
  simp only [step, chosenSeed, if_pos hg, hseed, if_pos hb]

theorem step_merge_err {d : Record → Record → ℚ} {npg groups ng : Nat}
    {pool : List Record} {gl : List (List Record)} {seed : Record}
    (hg : ng < groups) (hseed : pool[ng]? = some seed)
    (hb : ¬ ((roundFill d npg seed pool).1 ≠ [] ∧
      npg ≤ (roundFill d npg seed pool).1.length))
    (hl : gl.getLast? = none) :
    step d npg groups ⟨ng, pool, gl⟩ = .mergeIndexError := by
  simp only [step, chosenSeed, if_pos hg, hseed, if_neg hb, hl]

theorem step_merge_split {d : Record → Record → ℚ} {npg groups ng : Nat}
    {pool : List Record} {gl : List (List Record)} {seed : Record}
    {lastGroup : List Record}
    (hg : ng < groups) (hseed : pool[ng]? = some seed)
    (hb : ¬ ((roundFill d npg seed pool).1 ≠ [] ∧
      npg ≤ (roundFill d npg seed pool).1.length))
    (hl : gl.getLast? = some lastGroup)
    (hsplit : 3 * npg ≤ 2 * (lastGroup ++ (roundFill d npg seed pool).1).length) :
    step d npg groups ⟨ng, pool, gl⟩ =
      .next ⟨ng + 1, (roundFill d npg seed pool).2,
             gl.dropLast ++
               [(lastGroup ++ (roundFill d npg seed pool).1).take npg,
                (lastGroup ++ (roundFill d npg seed pool).1).drop npg]⟩ := by
  simp only [step, chosenSeed, if_pos hg, hseed, if_neg hb, hl, if_pos hsplit]

theorem step_merge_nosplit {d : Record → Record → ℚ} {npg groups ng : Nat}
    {pool : List Record} {gl : List (List Record)} {seed : Record}
    {lastGroup : List Record}
    (hg : ng < groups) (hseed : pool[ng]? = some seed)
    (hb : ¬ ((roundFill d npg seed pool).1 ≠ [] ∧
      npg ≤ (roundFill d npg seed pool).1.length))
    (hl : gl.getLast? = some lastGroup)
    (hsplit : ¬ 3 * npg ≤ 2 * (lastGroup ++ (roundFill d npg seed pool).1).length) :
    step d npg groups ⟨ng, pool, gl⟩ =
      .next ⟨ng, (roundFill d npg seed pool).2,
             gl.dropLast ++ [lastGroup ++ (roundFill d npg seed pool).1]⟩ := by
  simp only [step, chosenSeed, if_pos hg, hseed, if_neg hb, hl, if_neg hsplit]

/-! ### Characterization of `__read_csv` -/

theorem readCsvGo_eq :
    ∀ (rows : List RawRow) (users : List Record) (skipped : Nat),
      (∀ r ∈ rows, r.hasRequiredKeys = true) →
      readCsvGo rows users skipped =
        some (users ++ rows.filterMap rowRecord,
              skipped + rows.countP (fun r => r.coords.isNone)) := by
  intro rows
  induction rows with
  | nil =>
    intro users skipped _
    simp [readCsvGo]
  | cons r rest ih =>
    intro users skipped hkeys
    have hr : r.hasRequiredKeys = true := hkeys r (List.mem_cons_self r rest)
    have hrest : ∀ x ∈ rest, x.hasRequiredKeys = true := fun x hx =>
      hkeys x (List.mem_cons_of_mem _ hx)
    cases hc : r.coords with
    | some c =>
      simp only [readCsvGo, hr, if_true, hc]
      rw [ih _ _ hrest]
      simp only [Option.some.injEq, Prod.mk.injEq]
      constructor
      · simp [rowRecord, hc, List.filterMap_cons, List.append_assoc]
      · simp [List.countP_cons, hc]
    | none =>
      simp only [readCsvGo, hr, if_true, hc]
      rw [ih _ _ hrest]
      simp only [Option.some.injEq, Prod.mk.injEq]
      constructor
      · simp [rowRecord, hc, List.filterMap_cons]
      · simp only [List.countP_cons, hc]
        simp
        omega

/-! ### Arithmetic facts about the ceiling division `num_per_group` -/

theorem ceil_ge_succ {n0 g npg : Nat} (hg : 1 ≤ g) (h : g * npg + 1 ≤ n0) :
    npg + 1 ≤ (n0 + g - 1) / g := by
  rw [Nat.le_div_iff_mul_le hg]
  have h2 : (npg + 1) * g = g * npg + g := by ring
  omega

theorem ceil_pos {n0 g : Nat} (hg : 1 ≤ g) (hn : 1 ≤ n0) :
    1 ≤ (n0 + g - 1) / g := by
  rw [Nat.le_div_iff_mul_le hg, one_mul]
  omega

theorem ceil_le_self {n0 g : Nat} (hg : 1 ≤ g) :
    (n0 + g - 1) / g ≤ n0 := by
  rw [Nat.div_le_iff_le_mul_add_pred hg]
  have h2 : n0 ≤ g * n0 := Nat.le_mul_of_pos_left n0 hg
  omega

/-! ### The master analysis of a successful run of `__build_groups`

Starting from any loop state reachable from the top-level call — `num_groups
= len(groups_list)`, every finalized group so far has exactly `npg + 1`
members, the counting identity `n0 = len(groups_list)·(npg+1) + len(pool)`
holds, the pool is non-empty, and `npg = ⌈n0 / g⌉` — a run that returns
normally yields groups that partition the records, are all non-empty, and
satisfy the size bounds (all groups except the final split remainder lie in
`[npg, 1.5·npg)`; the remainder has at most `npg` members). -/
theorem buildLoop_run {d : Record → Record → ℚ} {g npg n0 : Nat}
    (hg : 1 ≤ g) (hnpg : npg = (n0 + g - 1) / g) :
    ∀ (N : Nat) (pool : List Record), pool.length ≤ N →
    ∀ (ng : Nat) (gl out : List (List Record)),
      ng = gl.length →
      (∀ G ∈ gl, G.length = npg + 1) →
      n0 = gl.length * (npg + 1) + pool.length →
      pool ≠ [] →
      buildLoop d npg g ⟨ng, pool, gl⟩ = some out →
      (∀ G ∈ out.dropLast, npg ≤ G.length ∧ 2 * G.length < 3 * npg) ∧
      (∀ L, out.getLast? = some L →
        (npg ≤ L.length ∧ 2 * L.length < 3 * npg) ∨ L.length ≤ npg) ∧
      out.flatten.Perm (gl.flatten ++ pool) ∧
      (∀ G ∈ out, G ≠ []) := by
  intro N
  induction N with
  | zero =>
    intro pool hlen ng gl out _ _ _ hpool _
    exact absurd (List.eq_nil_of_length_eq_zero (by omega)) hpool
  | succ N ih =>
    intro pool hlen ng gl out hng hsizes hcount hpool hrun
    have hp1 : 1 ≤ pool.length := List.length_pos.mpr hpool
    have hn01 : 1 ≤ n0 := by omega
    have hnpg1 : 1 ≤ npg := hnpg ▸ ceil_pos hg hn01
    by_cases hglt : ng < g
    · cases hseed : pool[ng]? with
      | none =>
        rw [buildLoop_seedErr (step_of_no_seed hglt hseed)] at hrun
        cases hrun
      | some seed =>
        have hnglt : ng < pool.length := by
          rcases List.getElem?_eq_some.mp hseed with ⟨hlt, _⟩
          exact hlt
        have hfl : (roundFill d npg seed pool).1.length = min (npg + 1) pool.length :=
          roundFill_fst_length d npg seed pool
        have hperm : ((roundFill d npg seed pool).1 ++ (roundFill d npg seed pool).2).Perm pool :=
          roundFill_perm d npg seed pool
        have hadd : (roundFill d npg seed pool).1.length +
            (roundFill d npg seed pool).2.length = pool.length :=
          roundFill_length_add d npg seed pool
        have hminc := min_choice (npg + 1) pool.length
        have hfne : (roundFill d npg seed pool).1 ≠ [] := by
          have h1 : 1 ≤ (roundFill d npg seed pool).1.length := by
            rw [hfl]
            exact le_min (by omega) hp1
          exact List.length_pos.mp (by omega)
        by_cases hbig : npg ≤ (roundFill d npg seed pool).1.length
        · -- candidate group finalized
          rw [buildLoop_next (step_finalize hglt hseed ⟨hfne, hbig⟩)] at hrun
          by_cases hpe : (roundFill d npg seed pool).2 = []
          · -- pool exhausted: the next iteration either exits or raises
            by_cases hg2 : ng + 1 < g
            · rw [buildLoop_seedErr (step_of_no_seed hg2 (by simp [hpe]))] at hrun
              cases hrun
            · rw [buildLoop_finished (step_of_not_lt hg2)] at hrun
              injection hrun with hout
              subst hout
              have hall : (roundFill d npg seed pool).1.length = pool.length := by
                have : (roundFill d npg seed pool).2.length = 0 := by rw [hpe]; rfl
                omega
              by_cases hg1 : gl = []
              · -- a single group: groups = 1 and the group is the whole pool
                subst hg1
                have hn0p : n0 = pool.length := by simpa using hcount
                have hgeq : g = 1 := by
                  have : ng = 0 := by simpa using hng
                  omega
                have hnpgn0 : npg = n0 := by
                  rw [hnpg, hgeq]
                  simp
                refine ⟨?_, ?_, ?_, ?_⟩
                · intro G hG
                  simp at hG
                · intro L hL
                  simp at hL
                  left
                  rw [← hL]
                  constructor
                  · omega
                  · omega
                · simp
                  exact (by simpa [hpe] using hperm : (roundFill d npg seed pool).1.Perm pool)
                · intro G hG
                  simp at hG
                  rw [hG]
                  exact hfne
              · -- at least two groups already: contradicts npg = ceil(n0 / g)
                exfalso
                have hgl1 : 1 ≤ gl.length := List.length_pos.mpr hg1
                have hgeq : g = gl.length + 1 := by omega
                have hbig2 : g * npg + 1 ≤ n0 := by
                  have e1 : g * (npg + 1) = g * npg + g := by ring
                  have e2 : g * (npg + 1) ≤ gl.length * (npg + 1) + (npg + 1) := by
                    have : g * (npg + 1) = gl.length * (npg + 1) + (npg + 1) := by
                      rw [hgeq]; ring
                    omega
                  omega
                have hcontra := ceil_ge_succ hg hbig2
                rw [← hnpg] at hcontra
                omega
          · -- pool not exhausted: the candidate took exactly npg + 1 members
            have h5 : 1 ≤ (roundFill d npg seed pool).2.length := List.length_pos.mpr hpe
            have hful : (roundFill d npg seed pool).1.length = npg + 1 := by omega
            have hrec := ih (roundFill d npg seed pool).2 (by omega) (ng + 1)
              (gl ++ [(roundFill d npg seed pool).1]) out
              (by simp [List.length_append]; omega)
              (by
                intro G hG
                rcases List.mem_append.mp hG with h | h
                · exact hsizes G h
                · simp at h
                  rw [h]
                  exact hful)
              (by
                have e3 : (gl.length + 1) * (npg + 1) = gl.length * (npg + 1) + (npg + 1) := by
                  ring
                simp [List.length_append]
                omega)
              hpe hrun
            obtain ⟨c1, c2, c3, c4⟩ := hrec
            refine ⟨c1, c2, ?_, c4⟩
            have e4 : (gl ++ [(roundFill d npg seed pool).1]).flatten ++
                (roundFill d npg seed pool).2 =
                gl.flatten ++ ((roundFill d npg seed pool).1 ++ (roundFill d npg seed pool).2) := by
              rw [List.flatten_concat, List.append_assoc]
            exact c3.trans (by rw [e4]; exact hperm.append_left gl.flatten)
        · -- candidate group too small: merged into the previous group
          have hsmall : (roundFill d npg seed pool).1.length < npg := by omega
          have hplt : pool.length < npg := by omega
          have hall : (roundFill d npg seed pool).1.length = pool.length := by omega
          have hpe : (roundFill d npg seed pool).2 = [] :=
            List.eq_nil_of_length_eq_zero (by omega)
          have hb : ¬ ((roundFill d npg seed pool).1 ≠ [] ∧
              npg ≤ (roundFill d npg seed pool).1.length) := by
            intro hcon
            omega
          cases hl : gl.getLast? with
          | none =>
            rw [buildLoop_mergeErr (step_merge_err hglt hseed hb hl)] at hrun
            cases hrun
          | some lastGroup =>
            have hglne : gl ≠ [] := by
              intro hgle
              rw [hgle] at hl
              simp at hl
            obtain ⟨ys, hys⟩ := List.getLast?_eq_some_iff.mp hl
            have hLmem : lastGroup ∈ gl := by
              rw [hys]
              simp
            have hLlen : lastGroup.length = npg + 1 := hsizes _ hLmem
            have hmlen : (lastGroup ++ (roundFill d npg seed pool).1).length =
                npg + 1 + pool.length := by
              rw [List.length_append]
              omega
            have hdecomp : gl.dropLast = ys := by
              rw [hys, List.dropLast_concat]
            by_cases hsplit : 3 * npg ≤ 2 * (lastGroup ++ (roundFill d npg seed pool).1).length
            · rw [buildLoop_next (step_merge_split hglt hseed hb hl hsplit)] at hrun
              by_cases hg2 : ng + 1 < g
              · rw [buildLoop_seedErr (step_of_no_seed hg2 (by simp [hpe]))] at hrun
                cases hrun
              · rw [buildLoop_finished (step_of_not_lt hg2)] at hrun
                injection hrun with hout
                subst hout
                have hng1 : 1 ≤ ng := by
                  rw [hng]
                  exact List.length_pos.mpr hglne
                have hgge2 : 2 ≤ g := by omega
                have hpg : g ≤ pool.length := by omega
                have hnpg3 : 3 ≤ npg := by omega
                have hkeep : ((lastGroup ++ (roundFill d npg seed pool).1).take npg).length =
                    npg := by
                  rw [List.length_take]
                  omega
                have hbypr : ((lastGroup ++ (roundFill d npg seed pool).1).drop npg).length =
                    pool.length + 1 := by
                  rw [List.length_drop]
                  omega
                have hre : gl.dropLast ++
                    [(lastGroup ++ (roundFill d npg seed pool).1).take npg,
                     (lastGroup ++ (roundFill d npg seed pool).1).drop npg] =
                    (gl.dropLast ++ [(lastGroup ++ (roundFill d npg seed pool).1).take npg]) ++
                      [(lastGroup ++ (roundFill d npg seed pool).1).drop npg] := by
                  simp
                refine ⟨?_, ?_, ?_, ?_⟩
                · intro G hG
                  rw [hre, List.dropLast_concat] at hG
                  rcases List.mem_append.mp hG with h | h
                  · have := hsizes G (List.mem_of_mem_dropLast h)
                    omega
                  · simp at h
                    rw [h]
                    omega
                · intro L hL
                  rw [hre, List.getLast?_concat] at hL
                  injection hL with hL
                  right
                  rw [← hL]
                  omega
                · have hflat : (gl.dropLast ++
                      [(lastGroup ++ (roundFill d npg seed pool).1).take npg,
                       (lastGroup ++ (roundFill d npg seed pool).1).drop npg]).flatten =
                      gl.dropLast.flatten ++ (lastGroup ++ (roundFill d npg seed pool).1) := by
                    simp
                  rw [hflat]
                  have hglflat : gl.flatten = gl.dropLast.flatten ++ lastGroup := by
                    conv_lhs => rw [hys]
                    rw [List.flatten_concat, hdecomp]
                  rw [hglflat]
                  have hfp : (roundFill d npg seed pool).1.Perm pool := by
                    simpa [hpe] using hperm
                  rw [← List.append_assoc]
                  exact hfp.append_left (gl.dropLast.flatten ++ lastGroup)
                · intro G hG
                  rw [hre] at hG
                  rcases List.mem_append.mp hG with h | h
                  · rcases List.mem_append.mp h with h2 | h2
                    · have := hsizes G (List.mem_of_mem_dropLast h2)
                      intro hGe
                      rw [hGe] at this
                      simp at this
                    · simp at h2
                      rw [h2]
                      intro hGe
                      have : ((lastGroup ++ (roundFill d npg seed pool).1).take npg).length = 0 := by
                        rw [hGe]
                        rfl
                      omega
                  · simp at h
                    rw [h]
                    intro hGe
                    have : ((lastGroup ++ (roundFill d npg seed pool).1).drop npg).length = 0 := by
                      rw [hGe]
                      rfl
                    omega
            · rw [buildLoop_next (step_merge_nosplit hglt hseed hb hl hsplit)] at hrun
              rw [buildLoop_seedErr (step_of_no_seed hglt (by simp [hpe]))] at hrun
              cases hrun
    · -- loop exit with a non-empty pool is unreachable from the top-level call
      exfalso
      have hgle : g ≤ gl.length := by omega
      have hbig2 : g * npg + 1 ≤ n0 := by
        have e1 : g * (npg + 1) = g * npg + g := by ring
        have e2 : g * (npg + 1) ≤ gl.length * (npg + 1) :=
          Nat.mul_le_mul_right _ hgle
        omega
      have hcontra := ceil_ge_succ hg hbig2
      rw [← hnpg] at hcontra
      omega

/-! ### Top-level bridge -/

/-- A successful `buildGroups` run satisfies the conclusions of the master
analysis, with the partition stated against the original user list. -/
theorem buildGroups_run {d : Record → Record → ℚ} {userList : List Record}
    {groups : Nat} {out : List (List Record)} (hg : 1 ≤ groups)
    (h : buildGroups d userList groups = some out) :
    (∀ G ∈ out.dropLast, numPerGroup userList groups ≤ G.length ∧
      2 * G.length < 3 * numPerGroup userList groups) ∧
    (∀ L, out.getLast? = some L →
      (numPerGroup userList groups ≤ L.length ∧
        2 * L.length < 3 * numPerGroup userList groups) ∨
      L.length ≤ numPerGroup userList groups) ∧
    out.flatten.Perm userList ∧
    (∀ G ∈ out, G ≠ []) := by
  rw [buildGroups,
      show initState userList =
        (⟨0, userList.insertionSort (fun a b => a.lon ≤ b.lon), []⟩ : BuildState) from rfl] at h
  by_cases hnil : userList = []
  · subst hnil
    rw [buildLoop_seedErr (step_of_no_seed (by omega) rfl)] at h
    cases h
  · have hlen0 : (userList.insertionSort (fun a b => a.lon ≤ b.lon)).length =
        userList.length := List.length_insertionSort _ _
    have hn1 : 1 ≤ userList.length := List.length_pos.mpr hnil
    have hpne : userList.insertionSort (fun a b => a.lon ≤ b.lon) ≠ [] :=
      List.length_pos.mp (by omega)
    obtain ⟨c1, c2, c3, c4⟩ :=
      @buildLoop_run d groups (numPerGroup userList groups) userList.length hg rfl
        (userList.insertionSort (fun a b => a.lon ≤ b.lon)).length
        (userList.insertionSort (fun a b => a.lon ≤ b.lon)) le_rfl 0 [] out rfl
        (by intro G hG; simp at hG)
        (by simp [hlen0]) hpne h
    refine ⟨c1, c2, ?_, c4⟩
    have c3' : out.flatten.Perm (userList.insertionSort (fun a b => a.lon ≤ b.lon)) := by
      simpa using c3
    exact c3'.trans (List.perm_insertionSort _ _)

/-! ### Reachability facts about `groups_list` -/

theorem step_next_gl_ne_nil {d : Record → Record → ℚ} {npg groups : Nat}
    {s s' : BuildState} (h : step d npg groups s = .next s') :
    s'.groupsList ≠ [] := by
  obtain ⟨ng, pool, gl⟩ := s
  by_cases hg : ng < groups
  · cases hseed : pool[ng]? with
    | none => rw [step_of_no_seed hg hseed] at h; cases h
    | some seed =>
      by_cases hb : (roundFill d npg seed pool).1 ≠ [] ∧
          npg ≤ (roundFill d npg seed pool).1.length
      · rw [step_finalize hg hseed hb] at h
        injection h with h
        rw [← h]
        simp
      · cases hl : gl.getLast? with
        | none => rw [step_merge_err hg hseed hb hl] at h; cases h
        | some lastGroup =>
          by_cases hsplit : 3 * npg ≤
              2 * (lastGroup ++ (roundFill d npg seed pool).1).length
          · rw [step_merge_split hg hseed hb hl hsplit] at h
            injection h with h
            rw [← h]
            simp
          · rw [step_merge_nosplit hg hseed hb hl hsplit] at h
            injection h with h
            rw [← h]
            simp
  · rw [step_of_not_lt hg] at h
    cases h

theorem step_not_mergeErr_of_gl {d : Record → Record → ℚ} {npg groups : Nat}
    {s : BuildState} (h : s.groupsList ≠ []) :
    step d npg groups s ≠ .mergeIndexError := by
  intro hcon
  obtain ⟨ng, pool, gl⟩ := s
  by_cases hg : ng < groups
  · cases hseed : pool[ng]? with
    | none => rw [step_of_no_seed hg hseed] at hcon; cases hcon
    | some seed =>
      by_cases hb : (roundFill d npg seed pool).1 ≠ [] ∧
          npg ≤ (roundFill d npg seed pool).1.length
      · rw [step_finalize hg hseed hb] at hcon; cases hcon
      · cases hl : gl.getLast? with
        | none => exact h (List.getLast?_eq_none_iff.mp hl)
        | some lastGroup =>
          by_cases hsplit : 3 * npg ≤
              2 * (lastGroup ++ (roundFill d npg seed pool).1).length
          · rw [step_merge_split hg hseed hb hl hsplit] at hcon; cases hcon
          · rw [step_merge_nosplit hg hseed hb hl hsplit] at hcon; cases hcon
  · rw [step_of_not_lt hg] at hcon
    cases hcon

theorem stepsN_gl_ne {d : Record → Record → ℚ} {npg groups : Nat} :
    ∀ (k : Nat) (s t : BuildState), stepsN d npg groups k s = some t →
      s.groupsList ≠ [] → t.groupsList ≠ [] := by
  intro k
  induction k with
  | zero =>
    intro s t h hs
    simp [stepsN] at h
    rw [← h]
    exact hs
  | succ k ihk =>
    intro s t h hs
    rw [stepsN] at h
    cases hstep : step d npg groups s with
    | next s1 =>
      rw [hstep] at h
      exact ihk s1 t h (step_next_gl_ne_nil hstep)
    | finished gl => rw [hstep] at h; cases h
    | seedIndexError => rw [hstep] at h; cases h
    | mergeIndexError => rw [hstep] at h; cases h

/-! ### Concrete runs used by witnesses

`buildLoop` is defined by well-founded recursion, so concrete runs are
evaluated by chaining the one-step unfolding lemmas; each individual `step`
is a plain computable function and evaluates by `decide`. -/

theorem buildGroups_users6_eq :
    buildGroups sampleDist users6 2 = some groups6 := by
  have h1 : step sampleDist 3 2 ⟨0, users6, []⟩ =
      .next ⟨1, [linRecord 4, linRecord 5],
             [[linRecord 0, linRecord 1, linRecord 2, linRecord 3]]⟩ := by decide
  have h2 : step sampleDist 3 2 ⟨1, [linRecord 4, linRecord 5],
      [[linRecord 0, linRecord 1, linRecord 2, linRecord 3]]⟩ =
      .next ⟨2, [], groups6⟩ := by decide
  have h3 : step sampleDist 3 2 ⟨2, [], groups6⟩ = .finished groups6 := by decide
  rw [buildGroups, show numPerGroup users6 2 = 3 from rfl,
      show initState users6 = (⟨0, users6, []⟩ : BuildState) from by decide,
      buildLoop_next h1, buildLoop_next h2, buildLoop_finished h3]

theorem buildGroups_users8_eq :
    buildGroups sampleDist users8 2 = some groups8 := by
  have h1 : step sampleDist 4 2 ⟨0, users8, []⟩ = .next midState := by decide
  have h2 : step sampleDist 4 2 midState = .next ⟨2, [], groups8⟩ := by decide
  have h3 : step sampleDist 4 2 ⟨2, [], groups8⟩ = .finished groups8 := by decide
  rw [buildGroups, show numPerGroup users8 2 = 4 from rfl,
      show initState users8 = (⟨0, users8, []⟩ : BuildState) from by decide,
      buildLoop_next h1, buildLoop_next h2, buildLoop_finished h3]

/-! ### The claims -/

/-- C1: for every record list and every `target_group_count ≥ 1`, the group
sequence returned by `__build_groups` is a partition of the input: the
concatenation of the groups is a permutation of the input records (so every
record appears in exactly one group, with no duplicates across groups), and
no returned group is empty. -/
theorem buildGroups_partition {d : Record → Record → ℚ} {userList : List Record}
    {groups : Nat} {out : List (List Record)} (hg : 1 ≤ groups)
    (h : buildGroups d userList groups = some out) :
    out.flatten.Perm userList ∧ ∀ G ∈ out, G ≠ [] :=
  ⟨(buildGroups_run hg h).2.2.1, (buildGroups_run hg h).2.2.2⟩

/-- Witness for C1: the six-record, two-group run. -/
theorem buildGroups_partition_witness :
    ((1 : Nat) ≤ 2 ∧ buildGroups sampleDist users6 2 = some groups6) ∧
    (groups6.flatten.Perm users6 ∧ ∀ G ∈ groups6, G ≠ []) :=
  ⟨⟨by decide, buildGroups_users6_eq⟩,
   buildGroups_partition (by decide) buildGroups_users6_eq⟩

/-- C2: on exactly 5 records with `target_group_count = 2` the builder does
compute `target_size_per_group = ceil(5/2) = 3`, but it does not terminate
normally: the first round takes 4 records (the `<=` guard allows
`npg + 1`), leaving a pool of 1, and the seed selection of the second round
`user_list_copy[num_groups]` indexes position 1 of that 1-element pool and
raises `IndexError` — for every distance function `d`. -/
theorem buildGroups_five_two_index_error (d : Record → Record → ℚ) :
    buildGroups d users5 2 = none := by
  have hnpg : numPerGroup users5 2 = 3 := rfl
  have hinit : initState users5 = (⟨0, users5, []⟩ : BuildState) := by decide
  rw [buildGroups, hnpg, hinit]
  have hseed : users5[0]? = some (linRecord 0) := rfl
  have hfl := roundFill_fst_length d 3 (linRecord 0) users5
  have hadd := roundFill_length_add d 3 (linRecord 0) users5
  have hlen5 : users5.length = 5 := rfl
  rw [hlen5] at hfl hadd
  have hmin : min (3 + 1) 5 = 4 := rfl
  rw [hmin] at hfl
  have hfne : (roundFill d 3 (linRecord 0) users5).1 ≠ [] := by
    intro hx
    rw [hx] at hfl
    simp at hfl
  rw [buildLoop_next (step_finalize (by omega) hseed ⟨hfne, by omega⟩)]
  have hseed2 : (roundFill d 3 (linRecord 0) users5).2[0 + 1]? = (none : Option Record) :=
    List.getElem?_eq_none (by omega)
  rw [buildLoop_seedErr (step_of_no_seed (by omega) hseed2)]

/-- C3 (counterexample): the seed of a round is not always the first
still-unassigned record.  On the 8-record run, the state after round one
has pool `[r5, r6, r7]` and `num_groups = 1`, and the seed chosen for round
two is `r6` — the second element of the pool, not its head `r5`. -/
theorem seed_skips_first_unassigned_cex :
    stepsN sampleDist (numPerGroup users8 2) 2 1 (initState users8) = some midState ∧
    chosenSeed midState ≠ midState.pool.head? := by
  constructor
  · decide
  · decide

/-- C3 (amended): the seed `user = user_list_copy[num_groups]` is the first
surviving record of the pool only after skipping `num_groups` of them:
it is the head of the pool with its first `num_groups` elements dropped,
hence the earliest surviving element exactly when `num_groups = 0`. -/
theorem chosenSeed_eq_drop_head (s : BuildState) :
    chosenSeed s = (s.pool.drop s.numGroups).head? := by
  rw [chosenSeed, List.head?_drop]

/-- C4: in every sequence of groups `__build_groups` returns, each group
except possibly the last lies in `[target_size_per_group,
1.5 * target_size_per_group)`; the last group either lies in that interval
too or is a split remainder with at most `target_size_per_group` members
(the remainder of a merged group of size at most `2 * target_size_per_group`
after the first `target_size_per_group` members are kept, i.e. at most
`original - target_size_per_group`). -/
theorem buildGroups_size_property {d : Record → Record → ℚ} {userList : List Record}
    {groups : Nat} {out : List (List Record)} (hg : 1 ≤ groups)
    (h : buildGroups d userList groups = some out) :
    (∀ G ∈ out.dropLast, numPerGroup userList groups ≤ G.length ∧
      2 * G.length < 3 * numPerGroup userList groups) ∧
    (∀ L, out.getLast? = some L →
      (numPerGroup userList groups ≤ L.length ∧
        2 * L.length < 3 * numPerGroup userList groups) ∨
      L.length ≤ numPerGroup userList groups) :=
  ⟨(buildGroups_run hg h).1, (buildGroups_run hg h).2.1⟩

/-- Witness for C4: the eight-record, two-group run. -/
theorem buildGroups_size_property_witness :
    ((1 : Nat) ≤ 2 ∧ buildGroups sampleDist users8 2 = some groups8) ∧
    ((∀ G ∈ groups8.dropLast, numPerGroup users8 2 ≤ G.length ∧
        2 * G.length < 3 * numPerGroup users8 2) ∧
     (∀ L, groups8.getLast? = some L →
        (numPerGroup users8 2 ≤ L.length ∧ 2 * L.length < 3 * numPerGroup users8 2) ∨
        L.length ≤ numPerGroup users8 2)) :=
  ⟨⟨by decide, buildGroups_users8_eq⟩,
   buildGroups_size_property (by decide) buildGroups_users8_eq⟩

/-- C5: whenever the candidate group of a round ends up smaller than
`target_size_per_group` (and a previous finalized group exists), its members
are appended to the most recently finalized group `groups_list[-1]`; if the
merged group then reaches `1.5 * target_size_per_group` it is split — the
first `target_size_per_group` members stay in place and the rest becomes a
new finalized group appended at the end of the group sequence. -/
theorem step_merge_into_previous {d : Record → Record → ℚ} {npg groups ng : Nat}
    {pool : List Record} {gl : List (List Record)} {seed : Record}
    {lastGroup : List Record}
    (hg : ng < groups) (hseed : pool[ng]? = some seed)
    (hsmall : (roundFill d npg seed pool).1.length < npg)
    (hl : gl.getLast? = some lastGroup) :
    step d npg groups ⟨ng, pool, gl⟩ =
      if 3 * npg ≤ 2 * (lastGroup ++ (roundFill d npg seed pool).1).length then
        .next ⟨ng + 1, (roundFill d npg seed pool).2,
               gl.dropLast ++
                 [(lastGroup ++ (roundFill d npg seed pool).1).take npg,
                  (lastGroup ++ (roundFill d npg seed pool).1).drop npg]⟩
      else
        .next ⟨ng, (roundFill d npg seed pool).2,
               gl.dropLast ++ [lastGroup ++ (roundFill d npg seed pool).1]⟩ := by
  have hb : ¬ ((roundFill d npg seed pool).1 ≠ [] ∧
      npg ≤ (roundFill d npg seed pool).1.length) := fun hcon => absurd hcon.2 (by omega)
  by_cases hsplit : 3 * npg ≤ 2 * (lastGroup ++ (roundFill d npg seed pool).1).length
  · rw [if_pos hsplit]
    exact step_merge_split hg hseed hb hl hsplit
  · rw [if_neg hsplit]
    exact step_merge_nosplit hg hseed hb hl hsplit

/-- Witness for C5: round two of the eight-record run merges the 3-record
remainder into the previous 5-record group and splits the result. -/
theorem step_merge_into_previous_witness :
    ((1 : Nat) < 2 ∧ midPool[1]? = some (linRecord 6) ∧
     (roundFill sampleDist 4 (linRecord 6) midPool).1.length < 4 ∧
     midGroups.getLast? =
       some [linRecord 0, linRecord 1, linRecord 2, linRecord 3, linRecord 4]) ∧
    step sampleDist 4 2 ⟨1, midPool, midGroups⟩ =
      (if 3 * 4 ≤ 2 * ([linRecord 0, linRecord 1, linRecord 2, linRecord 3,
            linRecord 4] ++ (roundFill sampleDist 4 (linRecord 6) midPool).1).length then
        .next ⟨1 + 1, (roundFill sampleDist 4 (linRecord 6) midPool).2,
               midGroups.dropLast ++
                 [([linRecord 0, linRecord 1, linRecord 2, linRecord 3, linRecord 4] ++
                     (roundFill sampleDist 4 (linRecord 6) midPool).1).take 4,
                  ([linRecord 0, linRecord 1, linRecord 2, linRecord 3, linRecord 4] ++
                     (roundFill sampleDist 4 (linRecord 6) midPool).1).drop 4]⟩
      else
        .next ⟨1, (roundFill sampleDist 4 (linRecord 6) midPool).2,
               midGroups.dropLast ++
                 [[linRecord 0, linRecord 1, linRecord 2, linRecord 3, linRecord 4] ++
                    (roundFill sampleDist 4 (linRecord 6) midPool).1]⟩) :=
  ⟨⟨by decide, by decide, by decide, by decide⟩,
   step_merge_into_previous (by decide) (by decide) (by decide) (by decide)⟩

/-- C6: during candidate assembly the guard `len(current_group) <=
num_per_group` accepts one member past the target, so the candidate group
contains exactly `min (num_per_group + 1) (pool size)` members: it reaches
`num_per_group + 1` whenever enough records remain and never exceeds it. -/
theorem candidate_group_size (d : Record → Record → ℚ) (npg : Nat) (seed : Record)
    (pool : List Record) :
    (roundFill d npg seed pool).1.length = min (npg + 1) pool.length :=
  roundFill_fst_length d npg seed pool

/-- C7: the distance formula is symmetric: swapping the arguments negates
both the `x` and `y` terms, leaving `x^2 + y^2` unchanged, and the cosine
argument `(a_lat + b_lat) / 2` is the same in either order. -/
theorem distance_symm (A B : ℝ × ℝ) : distance A B = distance B A := by
  rw [distance, distance, add_comm B.1 A.1]
  have h1 : ((B.2 - A.2) * Real.cos ((A.1 + B.1) / 2)) ^ 2 + (B.1 - A.1) ^ 2 =
      ((A.2 - B.2) * Real.cos ((A.1 + B.1) / 2)) ^ 2 + (A.1 - B.1) ^ 2 := by
    ring
  rw [h1]

/-- C8: a CSV row with all required columns whose coordinates fail numeric
parsing contributes no record (it is excluded from the returned user list),
bumps the skip count (which `__read_csv` reports as a warning when
positive), and does not abort the run: the result is still `some`, with all
other parseable rows parsed in order. -/
theorem readCsv_skips_unparseable {rows : List RawRow} {bad : RawRow}
    (hkeys : ∀ r ∈ rows, r.hasRequiredKeys = true) (hmem : bad ∈ rows)
    (hbad : bad.coords = none) :
    readCsv rows = some (rows.filterMap rowRecord,
                         rows.countP (fun r => r.coords.isNone)) ∧
    rowRecord bad = none ∧
    0 < rows.countP (fun r => r.coords.isNone) := by
  refine ⟨?_, ?_, ?_⟩
  · rw [readCsv, readCsvGo_eq rows [] 0 hkeys]
    simp
  · simp [rowRecord, hbad]
  · exact List.countP_pos_iff.mpr ⟨bad, hmem, by simp [hbad]⟩

/-- Witness for C8: a three-row file whose middle row has `latitude="abc"`. -/
theorem readCsv_skips_unparseable_witness :
    ((∀ r ∈ sampleRows, r.hasRequiredKeys = true) ∧ badRow 1 ∈ sampleRows ∧
      (badRow 1).coords = none) ∧
    (readCsv sampleRows = some (sampleRows.filterMap rowRecord,
        sampleRows.countP (fun r => r.coords.isNone)) ∧
     rowRecord (badRow 1) = none ∧
     0 < sampleRows.countP (fun r => r.coords.isNone)) :=
  ⟨⟨by decide, by decide, by decide⟩,
   readCsv_skips_unparseable (by decide) (by decide) (by decide)⟩

/-- C9: with zero successfully parsed records and any `target_group_count ≥
1`, `__build_groups` does not return an empty group sequence — the very
first seed selection `user_list_copy[num_groups]` indexes the empty pool
and raises `IndexError`. -/
theorem buildGroups_empty_input_error (d : Record → Record → ℚ) (groups : Nat)
    (hg : 1 ≤ groups) :
    buildGroups d [] groups = none := by
  rw [buildGroups, show initState [] = (⟨0, [], []⟩ : BuildState) from rfl]
  exact buildLoop_seedErr (step_of_no_seed (by omega) rfl)

/-- Witness for C9. -/
theorem buildGroups_empty_input_error_witness :
    (1 : Nat) ≤ 1 ∧ buildGroups sampleDist [] 1 = none :=
  ⟨by decide, buildGroups_empty_input_error sampleDist 1 (by decide)⟩

/-- C10: on any non-empty input with `target_group_count ≥ 1`, the first
candidate group holds at least `target_size_per_group = ceil(n /
target_group_count)` members (since `n ≥ ceil(n / target_group_count)`), so
the first iteration finalizes a group; consequently no reachable loop state
ever executes the merge branch `groups_list[-1].extend(...)` while
`groups_list` is empty. -/
theorem first_round_finalizes {d : Record → Record → ℚ} {userList : List Record}
    {groups : Nat} (hne : userList ≠ []) (hg : 1 ≤ groups) :
    (∃ s', step d (numPerGroup userList groups) groups (initState userList) = .next s' ∧
       s'.numGroups = 1 ∧
       ∃ cg, s'.groupsList = [cg] ∧ numPerGroup userList groups ≤ cg.length) ∧
    noMergeCrashFrom d (numPerGroup userList groups) groups (initState userList) := by
  have hn1 : 1 ≤ userList.length := List.length_pos.mpr hne
  have hnpgle : numPerGroup userList groups ≤ userList.length := ceil_le_self hg
  have hnpg1 : 1 ≤ numPerGroup userList groups := ceil_pos hg hn1
  have hinit : initState userList =
      (⟨0, userList.insertionSort (fun a b => a.lon ≤ b.lon), []⟩ : BuildState) := rfl
  have hlen0 : (userList.insertionSort (fun a b => a.lon ≤ b.lon)).length =
      userList.length := List.length_insertionSort _ _
  obtain ⟨seed, hseed⟩ :
      ∃ x, (userList.insertionSort (fun a b => a.lon ≤ b.lon))[0]? = some x := by
    cases hx : (userList.insertionSort (fun a b => a.lon ≤ b.lon))[0]? with
    | none =>
      rw [List.getElem?_eq_none_iff] at hx
      omega
    | some x => exact ⟨x, rfl⟩
  have hfl := roundFill_fst_length d (numPerGroup userList groups) seed
    (userList.insertionSort (fun a b => a.lon ≤ b.lon))
  have hcg : numPerGroup userList groups ≤
      (roundFill d (numPerGroup userList groups) seed
        (userList.insertionSort (fun a b => a.lon ≤ b.lon))).1.length := by
    rw [hfl]
    exact le_min (by omega) (by omega)
  have hfne : (roundFill d (numPerGroup userList groups) seed
      (userList.insertionSort (fun a b => a.lon ≤ b.lon))).1 ≠ [] :=
    List.length_pos.mp (by omega)
  have hstep := @step_finalize d (numPerGroup userList groups) groups 0
    (userList.insertionSort (fun a b => a.lon ≤ b.lon)) [] seed
    (by omega) hseed ⟨hfne, hcg⟩
  constructor
  · refine ⟨⟨0 + 1,
      (roundFill d (numPerGroup userList groups) seed
        (userList.insertionSort (fun a b => a.lon ≤ b.lon))).2,
      [] ++ [(roundFill d (numPerGroup userList groups) seed
        (userList.insertionSort (fun a b => a.lon ≤ b.lon))).1]⟩, ?_, rfl,
      (roundFill d (numPerGroup userList groups) seed
        (userList.insertionSort (fun a b => a.lon ≤ b.lon))).1, by simp, hcg⟩
    rw [hinit]
    exact hstep
  · intro k t hk
    cases k with
    | zero =>
      simp [stepsN] at hk
      rw [← hk, hinit, hstep]
      simp
    | succ k =>
      rw [hinit, stepsN, hstep] at hk
      have hglne : t.groupsList ≠ [] := stepsN_gl_ne k _ t hk (by simp)
      exact step_not_mergeErr_of_gl hglne

/-- Witness for C10: the one-record, one-group run. -/
theorem first_round_finalizes_witness :
    (([linRecord 0] : List Record) ≠ [] ∧ (1 : Nat) ≤ 1) ∧
    ((∃ s', step sampleDist (numPerGroup [linRecord 0] 1) 1 (initState [linRecord 0]) =
        .next s' ∧ s'.numGroups = 1 ∧
        ∃ cg, s'.groupsList = [cg] ∧ numPerGroup [linRecord 0] 1 ≤ cg.length) ∧
     noMergeCrashFrom sampleDist (numPerGroup [linRecord 0] 1) 1
       (initState [linRecord 0])) :=
  ⟨⟨by decide, by decide⟩, first_round_finalizes (by decide) (by decide)⟩
